import Mathlib

/-!
A shallow embedding of `scripts/run_ce_demo.py`, the continuous-evaluation
(CE) gate demo: manifest-to-key derivation, idempotent skip, threshold
gatekeeping, history bookkeeping and batch orchestration.

Modelling conventions:
* Python `float` scores are modelled as `ℚ` (the program only compares and
  formats them; the claims under study use exact decimal values).
* Python `dict`s (`group_scores`, the history mapping) are modelled as
  association lists `List (key × value)`, which preserve the insertion
  order that Python dict iteration follows.
* External effects are made explicit: the JSON parser of the history file,
  the filesystem lookup for manifests, the metrics provider and the current
  UTC timestamp are parameters; writes to disk and console warnings are
  recorded as `Event`s in a trace returned alongside the result, so that
  "does not call / does not write / saves once" claims are statable.
-/

namespace CEDemo

/-- Zero-pads a natural number below 1000 to three digits; helper for the
three-decimal fixed-point formatting used in gate messages. -/
def pad3 (n : Nat) : String :=
  if n < 10 then "00" ++ toString n
  else if n < 100 then "0" ++ toString n
  else toString n

/-- Python's fixed three-decimal float formatting, applied to a rational:
round `|x| * 1000` to the nearest integer (half away from zero, computed on
the numerator and denominator: `⌊(|num| * 2000 + den) / (2 * den)⌋`) and
print with three digits after the decimal point. -/
def fmt3 (q : ℚ) : String :=
  let a : Nat := q.num.natAbs
  let n : Nat := (a * 2000 + q.den) / (2 * q.den)
  (if q.num < 0 then "-" else "") ++ toString (n / 1000) ++ "." ++ pad3 (n % 1000)

/-- A parsed model manifest: the three required identity fields plus the
optional `gate` mapping with its two recognized optional thresholds, which
the gatekeeper reads with default 0.0 when absent. -/
structure ModelCfg where
  model_id : String
  version : String
  evaluation_profile : String
  gate_min_overall_score : Option ℚ
  gate_min_group_score : Option ℚ
deriving DecidableEq, Repr

/-- The metrics dict returned by the metrics provider (`run_deepeval_stub`
in the source): identity echo, overall score, per-group scores (insertion
ordered) and informational raw metrics. -/
structure Metrics where
  model_id : String
  version : String
  evaluation_profile : String
  overall_score : ℚ
  group_scores : List (String × ℚ)
  raw_metrics : List (String × ℚ)
deriving DecidableEq, Repr

/-- One persisted history record (the record assigned to `history[key]` in the source). -/
structure HistoryEntry where
  status : String
  metrics_path : String
  report_path : String
  reasons : List String
  created_at : String
deriving DecidableEq, Repr

/-- The in-memory history mapping, a key-ordered association list modelling
the Python dict loaded from `ce_history.json`. -/
abbrev History := List (String × HistoryEntry)

/-- Python dict lookup `history.get(key)` on the association list. -/
def histGet : History → String → Option HistoryEntry
  | [], _ => none
  | (k', e') :: rest, k => if k' = k then some e' else histGet rest k

/-- Python dict assignment `history[key] = entry`: replace the entry in
place when the key is present, append otherwise. -/
def histSet : History → String → HistoryEntry → History
  | [], k, e => [(k, e)]
  | (k', e') :: rest, k, e =>
    if k' = k then (k, e) :: rest else (k', e') :: histSet rest k e

/-- `build_key`: the identity key, the three fields joined by `::`
(an f-string in the source). -/
def build_key (cfg : ModelCfg) : String :=
  cfg.model_id ++ "::" ++ cfg.version ++ "::" ++ cfg.evaluation_profile

/-- `has_successful_eval`: the key has an entry and its status is "pass"
(source: truthiness of the entry and an equality test of its status field). -/
def has_successful_eval (history : History) (key : String) : Bool :=
  match histGet history key with
  | some entry => entry.status == "pass"
  | none => false

/-- `run_deepeval_stub`: the stub metrics provider, branching on whether
the version string ends in "0". -/
def run_deepeval_stub (model_cfg : ModelCfg) : Metrics :=
  let scores : ℚ × ℚ :=
    if model_cfg.version.endsWith "0" then (mkRat 80 100, mkRat 78 100)
    else (mkRat 72 100, mkRat 68 100)
  { model_id := model_cfg.model_id
    version := model_cfg.version
    evaluation_profile := model_cfg.evaluation_profile
    overall_score := scores.1
    group_scores := [("group_a", scores.2), ("group_b", scores.2 + mkRat 2 100)]
    raw_metrics := [("demographic_parity", mkRat 81 100),
      ("equal_selection_parity", mkRat 76 100)] }

/-- The failure message the gatekeeper appends for the overall score, with
fixed three-decimal formatting as in the source f-string. -/
def overallReason (min_overall score : ℚ) : String :=
  "overall_score " ++ fmt3 score ++ " < min_overall_score " ++ fmt3 min_overall

/-- The failure message the gatekeeper appends for one group, with fixed
three-decimal formatting as in the source f-string. -/
def groupReason (min_group : ℚ) (g : String × ℚ) : String :=
  "group " ++ g.1 ++ " score " ++ fmt3 g.2 ++ " < min_group_score " ++
    fmt3 min_group

/-- The body of `apply_gatekeeper`'s per-group loop: on `score < min_group`
set `ok = False` and append the group's reason, else leave the accumulator
unchanged. -/
def gateStep (min_group : ℚ) (acc : Bool × List String) (g : String × ℚ) :
    Bool × List String :=
  if g.2 < min_group then (false, acc.2 ++ [groupReason min_group g])
  else acc

/-- `apply_gatekeeper`: read the two thresholds with default 0.0, check the
overall score, then fold the per-group check over `group_scores` in its
(insertion) order; returns `(ok, reasons)`. -/
def apply_gatekeeper (model_cfg : ModelCfg) (metrics : Metrics) :
    Bool × List String :=
  let min_overall : ℚ := model_cfg.gate_min_overall_score.getD 0
  let min_group : ℚ := model_cfg.gate_min_group_score.getD 0
  let init : Bool × List String :=
    if metrics.overall_score < min_overall then
      (false, [overallReason min_overall metrics.overall_score])
    else (true, [])
  metrics.group_scores.foldl (gateStep min_group) init

/-- `write_artifacts`: the report-rendering collaborator; the core only
consumes the pair of stable artifact locations it returns, derived from the
manifest identity (the rendered file contents are out of scope). -/
def write_artifacts (model_cfg : ModelCfg) (metrics : Metrics) (passed : Bool)
    (reasons : List String) : String × String :=
  let base_name := model_cfg.model_id ++ "_" ++ model_cfg.version ++ "_" ++
    model_cfg.evaluation_profile
  ("reports/" ++ base_name ++ "_metrics.json",
   "reports/" ++ base_name ++ "_report.html")

/-- Observable side effects of a run, recorded as a trace. -/
inductive Event where
  | providerCall (cfg : ModelCfg)
  | artifactWrite (cfg : ModelCfg)
  | warnMissing (path : String)
  | historyLoad
  | historySave (history : History)
deriving DecidableEq, Repr

/-- `evaluate_model_manifest`: skip when the key already has a successful
run, otherwise call the provider, gate, write artifacts and upsert the
history entry. Returns `(passed, updated history, effect trace)`; the
provider and the `datetime.now(UTC).isoformat()` timestamp are
parameters. -/
def evaluate_model_manifest (provider : ModelCfg → Metrics) (now : String)
    (model_cfg : ModelCfg) (history : History) :
    Bool × History × List Event :=
  let key := build_key model_cfg
  if has_successful_eval history key then
    (true, history, [])
  else
    let metrics := provider model_cfg
    let verdict := apply_gatekeeper model_cfg metrics
    let paths := write_artifacts model_cfg metrics verdict.1 verdict.2
    let entry : HistoryEntry :=
      { status := if verdict.1 then "pass" else "failed_gate"
        metrics_path := paths.1
        report_path := paths.2
        reasons := verdict.2
        created_at := now }
    (verdict.1, histSet history key entry,
      [Event.providerCall model_cfg, Event.artifactWrite model_cfg])

/-- Python's `str.strip()`: drop whitespace characters from both ends. -/
def strip (s : String) : String :=
  ⟨((s.data.dropWhile Char.isWhitespace).reverse.dropWhile
      Char.isWhitespace).reverse⟩

/-- `load_history`: absent file gives an empty mapping; a present file is
read and stripped; blank content gives an empty mapping; otherwise the
content is handed to the JSON parser, whose failure (`none`) propagates as
a fatal error. The durable file is `Option String` (absent / its content)
and `json.loads` is the `parse` parameter. -/
def load_history (parse : String → Option History) (file : Option String) :
    Option History :=
  match file with
  | none => some []
  | some raw =>
    let content := strip raw
    if content = "" then some []
    else parse content

/-- One iteration of `main`'s manifest loop: a missing manifest (the
filesystem lookup `fs` returns `none`) emits a warning and continues;
otherwise the manifest is evaluated and the pass flag is folded into
`all_ok`. Accumulator: `(all_ok, history, trace)`. -/
def main_step (fs : String → Option ModelCfg) (provider : ModelCfg → Metrics)
    (now : String) (acc : Bool × History × List Event) (path : String) :
    Bool × History × List Event :=
  match fs path with
  | none => (acc.1, acc.2.1, acc.2.2 ++ [Event.warnMissing path])
  | some model_cfg =>
    let r := evaluate_model_manifest provider now model_cfg acc.2.1
    (acc.1 && r.1, r.2.1, acc.2.2 ++ r.2.2)

/-- `main`: with no manifest paths, return 0 immediately (the history store
is neither loaded nor saved). Otherwise load the history (a parse failure
propagates as `none`), process every path in order, save the full history
once, and return `0` iff every evaluated manifest passed. The filesystem
(`Path.exists` plus YAML parsing of existing manifests) is the `fs`
parameter. -/
def main_run (parse : String → Option History) (file : Option String)
    (fs : String → Option ModelCfg) (provider : ModelCfg → Metrics)
    (now : String) (argv : List String) : Option (Nat × List Event) :=
  if argv.isEmpty then some (0, [])
  else
    match load_history parse file with
    | none => none
    | some history =>
      let r := argv.foldl (main_step fs provider now)
        (true, history, [Event.historyLoad])
      some ((if r.1 then 0 else 1), r.2.2 ++ [Event.historySave r.2.1])

/-- Recursive restatement of `main`'s manifest loop, used to phrase batch
properties: returns the conjunction of per-manifest pass flags, the final
history and the concatenated trace. -/
def batchRun (fs : String → Option ModelCfg) (provider : ModelCfg → Metrics)
    (now : String) : History → List String → Bool × History × List Event
  | h, [] => (true, h, [])
  | h, p :: rest =>
    match fs p with
    | none =>
      let r := batchRun fs provider now h rest
      (r.1, r.2.1, Event.warnMissing p :: r.2.2)
    | some cfg =>
      let e := evaluate_model_manifest provider now cfg h
      let r := batchRun fs provider now e.2.1 rest
      (e.1 && r.1, r.2.1, e.2.2 ++ r.2.2)

/-- The per-manifest pass flags of a batch, in order: missing manifests are
excluded, a skipped already-passed manifest contributes `true`. -/
def batchFlags (fs : String → Option ModelCfg) (provider : ModelCfg → Metrics)
    (now : String) : History → List String → List Bool
  | _, [] => []
  | h, p :: rest =>
    match fs p with
    | none => batchFlags fs provider now h rest
    | some cfg =>
      let e := evaluate_model_manifest provider now cfg h
      e.1 :: batchFlags fs provider now e.2.1 rest

/-- The pass flag of the gatekeeper's fold is the initial flag conjoined
with every group score being at least the group threshold. -/
lemma gateFold_fst (mg : ℚ) (l : List (String × ℚ)) :
    ∀ init : Bool × List String,
      (l.foldl (gateStep mg) init).1 =
        (init.1 && l.all fun g => !decide (g.2 < mg)) := by
  induction l with
  | nil => intro init; simp
  | cons g t ih =>
    intro init
    rw [List.foldl_cons, ih]
    by_cases h : g.2 < mg <;> simp [gateStep, h]

/-- The reasons of the gatekeeper's fold are the initial reasons followed
by one reason per failing group, in the list's order. -/
lemma gateFold_snd (mg : ℚ) (l : List (String × ℚ)) :
    ∀ init : Bool × List String,
      (l.foldl (gateStep mg) init).2 =
        init.2 ++ l.filterMap fun g =>
          if g.2 < mg then some (groupReason mg g) else none := by
  induction l with
  | nil => intro init; simp
  | cons g t ih =>
    intro init
    rw [List.foldl_cons, ih]
    by_cases h : g.2 < mg <;> simp [gateStep, h]

/-- The gatekeeper passes exactly when the overall score is not below its
threshold and no group score is below the group threshold. -/
lemma apply_gatekeeper_fst_iff (cfg : ModelCfg) (m : Metrics) :
    (apply_gatekeeper cfg m).1 = true ↔
      (¬ m.overall_score < cfg.gate_min_overall_score.getD 0 ∧
        ∀ g ∈ m.group_scores, ¬ g.2 < cfg.gate_min_group_score.getD 0) := by
  simp only [apply_gatekeeper]
  rw [gateFold_fst]
  by_cases ho : m.overall_score < cfg.gate_min_overall_score.getD 0 <;>
    simp [ho, List.all_eq_true]

/-- C3: for every descriptor and metrics, the overall check fails iff the
overall score is strictly below `min_overall_score`, and some group check
fails iff some group score is strictly below `min_group_score`; a score
exactly equal to its threshold passes. -/
theorem gate_threshold_strict (cfg : ModelCfg) (m : Metrics) :
    ((apply_gatekeeper cfg m).1 = false ↔
      (m.overall_score < cfg.gate_min_overall_score.getD 0 ∨
        ∃ g ∈ m.group_scores, g.2 < cfg.gate_min_group_score.getD 0))
    ∧ ((apply_gatekeeper cfg m).1 = true ↔
      (cfg.gate_min_overall_score.getD 0 ≤ m.overall_score ∧
        ∀ g ∈ m.group_scores, cfg.gate_min_group_score.getD 0 ≤ g.2)) := by
  have h := apply_gatekeeper_fst_iff cfg m
  constructor
  · constructor
    · intro hf
      by_contra hcon
      push_neg at hcon
      have ht := h.mpr
        ⟨not_lt.mpr hcon.1, fun g hgm => not_lt.mpr (hcon.2 g hgm)⟩
      rw [hf] at ht
      cases ht
    · intro hor
      have hnt : ¬ ((apply_gatekeeper cfg m).1 = true) := by
        rw [h]
        rintro ⟨ho, hg⟩
        rcases hor with ho2 | ⟨g, hgm, hlt⟩
        · exact ho ho2
        · exact hg g hgm hlt
      cases hx : (apply_gatekeeper cfg m).1
      · rfl
      · exact absurd hx hnt
  · rw [h]
    constructor
    · rintro ⟨ho, hg⟩
      exact ⟨not_lt.mp ho, fun g hgm => not_lt.mp (hg g hgm)⟩
    · rintro ⟨ho, hg⟩
      exact ⟨not_lt.mpr ho, fun g hgm => not_lt.mpr (hg g hgm)⟩

/-- C6: the gatekeeper's reasons list is empty iff its verdict is a pass. -/
theorem verdict_reasons_empty_iff (cfg : ModelCfg) (m : Metrics) :
    (apply_gatekeeper cfg m).2 = [] ↔ (apply_gatekeeper cfg m).1 = true := by
  simp only [apply_gatekeeper]
  rw [gateFold_fst, gateFold_snd]
  by_cases ho : m.overall_score < cfg.gate_min_overall_score.getD 0
  · simp [if_pos ho]
  · simp only [if_neg ho, List.nil_append, Bool.true_and]
    rw [List.filterMap_eq_nil_iff, List.all_eq_true]
    constructor
    · intro hall g hg
      have hx := hall g hg
      by_cases hlt : g.2 < cfg.gate_min_group_score.getD 0
      · rw [if_pos hlt] at hx; cases hx
      · simp [hlt]
    · intro hall g hg
      have hx := hall g hg
      by_cases hlt : g.2 < cfg.gate_min_group_score.getD 0
      · simp [hlt] at hx
      · rw [if_neg hlt]

/-- C7 counterexample: a metrics mapping whose groups arrive in the order
b, a produces the reasons in that same insertion order, not in lexicographic
order by group name (group a, whose name sorts first, is reported last). -/
theorem gate_reasons_not_lexicographic :
    (apply_gatekeeper ⟨"m", "v", "p", none, some (mkRat 50 100)⟩
        ⟨"m", "v", "p", mkRat 100 100, [("b", 0), ("a", 0)], []⟩).2 =
      ["group b score 0.000 < min_group_score 0.500",
        "group a score 0.000 < min_group_score 0.500"]
    ∧ "a".data < "b".data := by
  constructor
  · decide
  · decide

/-- C7 amended: the gatekeeper is a pure function of the descriptor and
metrics (so any two evaluations agree), and its reasons are the overall
reason, if any, followed by one reason per failing group in the order the
`group_scores` mapping lists them (its insertion order), not sorted
lexicographically. -/
theorem gate_reasons_deterministic_ordered (cfg : ModelCfg) (m : Metrics) :
    apply_gatekeeper cfg m =
      ((!decide (m.overall_score < cfg.gate_min_overall_score.getD 0) &&
          m.group_scores.all fun g =>
            !decide (g.2 < cfg.gate_min_group_score.getD 0)),
        (if m.overall_score < cfg.gate_min_overall_score.getD 0 then
            [overallReason (cfg.gate_min_overall_score.getD 0) m.overall_score]
          else []) ++
          m.group_scores.filterMap fun g =>
            if g.2 < cfg.gate_min_group_score.getD 0 then
              some (groupReason (cfg.gate_min_group_score.getD 0) g)
            else none) := by
  have h1 := gateFold_fst (cfg.gate_min_group_score.getD 0) m.group_scores
  have h2 := gateFold_snd (cfg.gate_min_group_score.getD 0) m.group_scores
  simp only [apply_gatekeeper]
  by_cases ho : m.overall_score < cfg.gate_min_overall_score.getD 0 <;>
    · refine Prod.ext ?_ ?_
      · rw [h1]; simp [ho]
      · rw [h2]; simp [ho]

/-- A concrete manifest, used to exercise the batch theorems. -/
def demo_cfg : ModelCfg :=
  ⟨"m1", "1.0", "p1", none, none⟩

/-- A concrete one-manifest filesystem, used to exercise the batch
theorems. -/
def demo_fs : String → Option ModelCfg :=
  fun p => if p = "a.yaml" then some demo_cfg else none

/-- Unfolding lemma: the skip branch of `evaluate_model_manifest`. -/
lemma evaluate_skip (provider : ModelCfg → Metrics) (now : String)
    (model_cfg : ModelCfg) (history : History)
    (hs : has_successful_eval history (build_key model_cfg) = true) :
    evaluate_model_manifest provider now model_cfg history =
      (true, history, []) := by
  simp [evaluate_model_manifest, hs]

/-- Unfolding lemma: the evaluation branch of `evaluate_model_manifest`. -/
lemma evaluate_not_skip (provider : ModelCfg → Metrics) (now : String)
    (model_cfg : ModelCfg) (history : History)
    (hs : ¬ has_successful_eval history (build_key model_cfg) = true) :
    evaluate_model_manifest provider now model_cfg history =
      ((apply_gatekeeper model_cfg (provider model_cfg)).1,
        histSet history (build_key model_cfg)
          { status := if (apply_gatekeeper model_cfg (provider model_cfg)).1
              then "pass" else "failed_gate"
            metrics_path := (write_artifacts model_cfg (provider model_cfg)
              (apply_gatekeeper model_cfg (provider model_cfg)).1
              (apply_gatekeeper model_cfg (provider model_cfg)).2).1
            report_path := (write_artifacts model_cfg (provider model_cfg)
              (apply_gatekeeper model_cfg (provider model_cfg)).1
              (apply_gatekeeper model_cfg (provider model_cfg)).2).2
            reasons := (apply_gatekeeper model_cfg (provider model_cfg)).2
            created_at := now },
        [Event.providerCall model_cfg, Event.artifactWrite model_cfg]) := by
  simp [evaluate_model_manifest, hs]

/-- A pass status in the history at some key yields the entry itself. -/
lemma has_successful_eval_entry {history : History} {key : String}
    (hs : has_successful_eval history key = true) :
    ∃ e, histGet history key = some e ∧ e.status = "pass" := by
  unfold has_successful_eval at hs
  cases hg : histGet history key with
  | none => rw [hg] at hs; cases hs
  | some e =>
    rw [hg] at hs
    exact ⟨e, rfl, by simpa using hs⟩

/-- Lookup after setting the same key returns the new entry. -/
lemma histGet_histSet_self :
    ∀ (h : History) (k : String) (e : HistoryEntry),
      histGet (histSet h k e) k = some e := by
  intro h
  induction h with
  | nil => intro k e; simp [histSet, histGet]
  | cons p t ih =>
    obtain ⟨k₀, e₀⟩ := p
    intro k e
    by_cases hk : k₀ = k
    · simp [histSet, histGet, hk]
    · simp [histSet, histGet, hk, ih]

/-- Lookup at a key untouched by a set at a different key is unchanged. -/
lemma histGet_histSet_ne :
    ∀ (h : History) (k k' : String) (e : HistoryEntry), k' ≠ k →
      histGet (histSet h k' e) k = histGet h k := by
  intro h
  induction h with
  | nil => intro k k' e hne; simp [histSet, histGet, hne]
  | cons p t ih =>
    obtain ⟨k₀, e₀⟩ := p
    intro k k' e hne
    by_cases hk : k₀ = k'
    · subst hk
      simp [histSet, histGet, hne]
    · simp only [histSet, if_neg hk]
      by_cases hk2 : k₀ = k <;> simp [histGet, hk2, ih _ _ _ hne]

/-- Looking up the successful key depends only on the mapping's value
there. -/
lemma hse_congr {h h' : History} {k : String}
    (he : histGet h' k = histGet h k) :
    has_successful_eval h' k = has_successful_eval h k := by
  unfold has_successful_eval
  rw [he]

/-- Evaluating one manifest preserves the presence of any history entry. -/
lemma evaluate_preserves_isSome (provider : ModelCfg → Metrics) (now : String)
    (model_cfg : ModelCfg) (history : History) (k : String)
    (hk : (histGet history k).isSome) :
    (histGet (evaluate_model_manifest provider now model_cfg history).2.1
      k).isSome := by
  by_cases hs : has_successful_eval history (build_key model_cfg) = true
  · rw [evaluate_skip provider now model_cfg history hs]
    exact hk
  · rw [evaluate_not_skip provider now model_cfg history hs]
    by_cases hbk : build_key model_cfg = k
    · subst hbk
      rw [histGet_histSet_self]
      rfl
    · rw [histGet_histSet_ne _ _ _ _ hbk]
      exact hk

/-- After evaluating one manifest its key has a history entry. -/
lemma evaluate_hist_key_isSome (provider : ModelCfg → Metrics) (now : String)
    (model_cfg : ModelCfg) (history : History) :
    (histGet (evaluate_model_manifest provider now model_cfg history).2.1
      (build_key model_cfg)).isSome := by
  by_cases hs : has_successful_eval history (build_key model_cfg) = true
  · rw [evaluate_skip provider now model_cfg history hs]
    obtain ⟨e, he, -⟩ := has_successful_eval_entry hs
    rw [he]
    rfl
  · rw [evaluate_not_skip provider now model_cfg history hs,
      histGet_histSet_self]
    rfl

/-- Evaluating one manifest never touches a key that already passed. -/
lemma evaluate_preserves_pass (provider : ModelCfg → Metrics) (now : String)
    (model_cfg : ModelCfg) (history : History) (k : String)
    (hp : has_successful_eval history k = true) :
    histGet (evaluate_model_manifest provider now model_cfg history).2.1 k =
      histGet history k := by
  by_cases hs : has_successful_eval history (build_key model_cfg) = true
  · rw [evaluate_skip provider now model_cfg history hs]
  · have hbk : build_key model_cfg ≠ k := fun he => hs (he ▸ hp)
    rw [evaluate_not_skip provider now model_cfg history hs,
      histGet_histSet_ne _ _ _ _ hbk]

/-- The effect trace of one evaluation: empty on skip, otherwise exactly a
provider call followed by an artifact write. -/
lemma evaluate_trace (provider : ModelCfg → Metrics) (now : String)
    (model_cfg : ModelCfg) (history : History) :
    (evaluate_model_manifest provider now model_cfg history).2.2 = []
    ∨ (evaluate_model_manifest provider now model_cfg history).2.2 =
        [Event.providerCall model_cfg, Event.artifactWrite model_cfg] := by
  by_cases hs : has_successful_eval history (build_key model_cfg) = true
  · left
    rw [evaluate_skip provider now model_cfg history hs]
  · right
    rw [evaluate_not_skip provider now model_cfg history hs]

/-- The manifest fold of `main` is `batchRun` threaded through the
accumulator. -/
lemma foldl_main_step (fs : String → Option ModelCfg)
    (provider : ModelCfg → Metrics) (now : String) :
    ∀ (argv : List String) (a : Bool) (h : History) (t : List Event),
      argv.foldl (main_step fs provider now) (a, h, t) =
        (a && (batchRun fs provider now h argv).1,
          (batchRun fs provider now h argv).2.1,
          t ++ (batchRun fs provider now h argv).2.2) := by
  intro argv
  induction argv with
  | nil => intro a h t; simp [batchRun]
  | cons p rest ih =>
    intro a h t
    rw [List.foldl_cons]
    cases hfs : fs p with
    | none =>
      have hstep : main_step fs provider now (a, h, t) p =
          (a, h, t ++ [Event.warnMissing p]) := by
        simp [main_step, hfs]
      rw [hstep, ih]
      simp [batchRun, hfs]
    | some cfg =>
      have hstep : main_step fs provider now (a, h, t) p =
          (a && (evaluate_model_manifest provider now cfg h).1,
            (evaluate_model_manifest provider now cfg h).2.1,
            t ++ (evaluate_model_manifest provider now cfg h).2.2) := by
        simp [main_step, hfs]
      rw [hstep, ih]
      simp [batchRun, hfs, Bool.and_assoc]

/-- The batch pass flag is the conjunction of the per-manifest flags. -/
lemma batchRun_fst_eq_flags (fs : String → Option ModelCfg)
    (provider : ModelCfg → Metrics) (now : String) :
    ∀ (argv : List String) (h : History),
      (batchRun fs provider now h argv).1 =
        (batchFlags fs provider now h argv).all id := by
  intro argv
  induction argv with
  | nil => intro h; simp [batchRun, batchFlags]
  | cons p rest ih =>
    intro h
    cases hfs : fs p <;> simp [batchRun, batchFlags, hfs, ih]

/-- The manifest loop itself never emits a history save event. -/
lemma batchRun_no_save (fs : String → Option ModelCfg)
    (provider : ModelCfg → Metrics) (now : String) :
    ∀ (argv : List String) (h hist : History),
      Event.historySave hist ∉ (batchRun fs provider now h argv).2.2 := by
  intro argv
  induction argv with
  | nil => intro h hist; simp [batchRun]
  | cons p rest ih =>
    intro h hist
    cases hfs : fs p with
    | none =>
      simp only [batchRun, hfs]
      intro hmem
      rw [List.mem_cons] at hmem
      rcases hmem with hmem | hmem
      · exact Event.noConfusion hmem
      · exact ih h hist hmem
    | some cfg =>
      simp only [batchRun, hfs]
      intro hmem
      rw [List.mem_append] at hmem
      rcases hmem with hmem | hmem
      · rcases evaluate_trace provider now cfg h with he | he <;>
          rw [he] at hmem <;> simp at hmem
      · exact ih _ hist hmem

/-- The batch preserves the presence of any history entry. -/
lemma batchRun_preserves_isSome (fs : String → Option ModelCfg)
    (provider : ModelCfg → Metrics) (now : String) :
    ∀ (argv : List String) (h : History) (k : String),
      (histGet h k).isSome →
      (histGet (batchRun fs provider now h argv).2.1 k).isSome := by
  intro argv
  induction argv with
  | nil => intro h k hk; simpa [batchRun] using hk
  | cons p rest ih =>
    intro h k hk
    cases hfs : fs p with
    | none =>
      simp only [batchRun, hfs]
      exact ih h k hk
    | some cfg =>
      simp only [batchRun, hfs]
      exact ih _ k (evaluate_preserves_isSome provider now cfg h k hk)

/-- The batch never touches a key that already passed. -/
lemma batchRun_preserves_pass (fs : String → Option ModelCfg)
    (provider : ModelCfg → Metrics) (now : String) :
    ∀ (argv : List String) (h : History) (k : String),
      has_successful_eval h k = true →
      histGet (batchRun fs provider now h argv).2.1 k = histGet h k := by
  intro argv
  induction argv with
  | nil => intro h k hp; simp [batchRun]
  | cons p rest ih =>
    intro h k hp
    cases hfs : fs p with
    | none =>
      simp only [batchRun, hfs]
      exact ih h k hp
    | some cfg =>
      simp only [batchRun, hfs]
      have h1 := evaluate_preserves_pass provider now cfg h k hp
      have h2 : has_successful_eval
          (evaluate_model_manifest provider now cfg h).2.1 k = true := by
        rw [hse_congr h1]
        exact hp
      rw [ih _ k h2, h1]

/-- Every existing manifest of the batch ends with a history entry at its
key. -/
lemma batchRun_records (fs : String → Option ModelCfg)
    (provider : ModelCfg → Metrics) (now : String) :
    ∀ (argv : List String) (h : History) (p : String) (cfg : ModelCfg),
      p ∈ argv → fs p = some cfg →
      (histGet (batchRun fs provider now h argv).2.1
        (build_key cfg)).isSome := by
  intro argv
  induction argv with
  | nil => intro h p cfg hmem hfs; exact absurd hmem (List.not_mem_nil p)
  | cons q rest ih =>
    intro h p cfg hmem hfs
    rcases List.mem_cons.mp hmem with rfl | hmem'
    · simp only [batchRun, hfs]
      exact batchRun_preserves_isSome fs provider now rest _ _
        (evaluate_hist_key_isSome provider now cfg h)
    · cases hq : fs q with
      | none =>
        simp only [batchRun, hq]
        exact ih h p cfg hmem' hfs
      | some cfg' =>
        simp only [batchRun, hq]
        exact ih _ p cfg hmem' hfs

/-- Every existing manifest of the batch either got its artifacts written
during the batch or its key holds a passing entry at the end. -/
lemma batchRun_processed (fs : String → Option ModelCfg)
    (provider : ModelCfg → Metrics) (now : String) :
    ∀ (argv : List String) (h : History) (p : String) (cfg : ModelCfg),
      p ∈ argv → fs p = some cfg →
      Event.artifactWrite cfg ∈ (batchRun fs provider now h argv).2.2
      ∨ ∃ e, histGet (batchRun fs provider now h argv).2.1
          (build_key cfg) = some e ∧ e.status = "pass" := by
  intro argv
  induction argv with
  | nil => intro h p cfg hmem hfs; exact absurd hmem (List.not_mem_nil p)
  | cons q rest ih =>
    intro h p cfg hmem hfs
    rcases List.mem_cons.mp hmem with rfl | hmem'
    · simp only [batchRun, hfs]
      by_cases hs : has_successful_eval h (build_key cfg) = true
      · right
        rw [evaluate_skip provider now cfg h hs]
        obtain ⟨en, hen, hpass⟩ := has_successful_eval_entry hs
        refine ⟨en, ?_, hpass⟩
        have hr := batchRun_preserves_pass fs provider now rest h
          (build_key cfg) hs
        simpa [hr] using hen
      · left
        rw [evaluate_not_skip provider now cfg h hs]
        simp
    · cases hq : fs q with
      | none =>
        simp only [batchRun, hq]
        rcases ih h p cfg hmem' hfs with hl | hr
        · exact Or.inl (List.mem_cons_of_mem _ hl)
        · exact Or.inr hr
      | some cfg' =>
        simp only [batchRun, hq]
        rcases ih _ p cfg hmem' hfs with hl | hr
        · exact Or.inl (List.mem_append_right _ hl)
        · exact Or.inr hr

/-- Dropping a missing manifest from anywhere in the batch changes neither
the aggregated pass flag nor the final history. -/
lemma batchRun_skip_missing (fs : String → Option ModelCfg)
    (provider : ModelCfg → Metrics) (now : String) (p : String)
    (hmiss : fs p = none) :
    ∀ (xs ys : List String) (h : History),
      (batchRun fs provider now h (xs ++ p :: ys)).1 =
        (batchRun fs provider now h (xs ++ ys)).1
      ∧ (batchRun fs provider now h (xs ++ p :: ys)).2.1 =
        (batchRun fs provider now h (xs ++ ys)).2.1 := by
  intro xs
  induction xs with
  | nil =>
    intro ys h
    constructor <;> simp only [List.nil_append, batchRun, hmiss]
  | cons x xs ih =>
    intro ys h
    simp only [List.cons_append]
    cases hx : fs x with
    | none =>
      simp only [batchRun, hx]
      exact ih ys h
    | some cfg =>
      simp only [batchRun, hx]
      have hr := ih ys (evaluate_model_manifest provider now cfg h).2.1
      exact ⟨by rw [hr.1], hr.2⟩

/-- A run over a single missing manifest warns, passes and saves the loaded
history unchanged. -/
lemma main_run_single_missing (parse : String → Option History)
    (file : Option String) (fs : String → Option ModelCfg)
    (provider : ModelCfg → Metrics) (now : String) (p : String)
    (h₀ : History) (hmiss : fs p = none)
    (hload : load_history parse file = some h₀) :
    main_run parse file fs provider now [p] =
      some (0, [Event.historyLoad, Event.warnMissing p,
        Event.historySave h₀]) := by
  simp [main_run, hload, main_step, hmiss]

/-- Splitting a character list at a separator character that occurs in
neither prefix is unambiguous. -/
lemma append_sep_inj :
    ∀ (a₁ a₂ b₁ b₂ : List Char), ':' ∉ a₁ → ':' ∉ a₂ →
      a₁ ++ ':' :: b₁ = a₂ ++ ':' :: b₂ → a₁ = a₂ ∧ b₁ = b₂ := by
  intro a₁
  induction a₁ with
  | nil =>
    intro a₂ b₁ b₂ h1 h2 he
    cases a₂ with
    | nil => simpa using he
    | cons c t =>
      simp only [List.nil_append, List.cons_append, List.cons.injEq] at he
      exact absurd (he.1 ▸ List.mem_cons_self c t) h2
  | cons c t ih =>
    intro a₂ b₁ b₂ h1 h2 he
    cases a₂ with
    | nil =>
      simp only [List.nil_append, List.cons_append, List.cons.injEq] at he
      exact absurd (he.1 ▸ List.mem_cons_self c t) h1
    | cons c₂ t₂ =>
      simp only [List.cons_append, List.cons.injEq] at he
      have hrec := ih t₂ b₁ b₂ (fun hm => h1 (List.mem_cons_of_mem c hm))
        (fun hm => h2 (List.mem_cons_of_mem c₂ hm)) he.2
      exact ⟨by rw [he.1, hrec.1], hrec.2⟩

/-- C2 counterexample: two descriptors that disagree on `model_id` and
`version` but whose fields contain the separator produce the same key, so
`build_key` is not injective over the triple. -/
theorem build_key_collision :
    build_key ⟨"a::b", "c", "d", none, none⟩ =
      build_key ⟨"a", "b::c", "d", none, none⟩
    ∧ ¬ (("a::b" : String) = "a" ∧ ("c" : String) = "b::c" ∧
        ("d" : String) = "d") := by
  constructor
  · decide
  · decide

/-- C2 amended: `build_key` is the three fields joined by the separator
`::`, and it is injective over triples whose fields do not contain the
separator character, as the spec's open question already demands of a
collision-free key scheme. -/
theorem build_key_inj (d₁ d₂ : ModelCfg)
    (h1 : ':' ∉ d₁.model_id.data) (h2 : ':' ∉ d₁.version.data)
    (h3 : ':' ∉ d₁.evaluation_profile.data)
    (h4 : ':' ∉ d₂.model_id.data) (h5 : ':' ∉ d₂.version.data)
    (h6 : ':' ∉ d₂.evaluation_profile.data)
    (hk : build_key d₁ = build_key d₂) :
    build_key d₁ =
      d₁.model_id ++ "::" ++ d₁.version ++ "::" ++ d₁.evaluation_profile
    ∧ d₁.model_id = d₂.model_id ∧ d₁.version = d₂.version
    ∧ d₁.evaluation_profile = d₂.evaluation_profile := by
  refine ⟨rfl, ?_⟩
  have hd := congrArg String.data hk
  have hsep : ("::" : String).data = [':', ':'] := rfl
  simp only [build_key, String.data_append, hsep, List.append_assoc,
    List.cons_append, List.nil_append] at hd
  obtain ⟨ha, htail⟩ :=
    append_sep_inj d₁.model_id.data d₂.model_id.data _ _ h1 h4 hd
  obtain ⟨htail1, htail2⟩ := List.cons.injEq .. ▸ htail
  obtain ⟨hb, htail3⟩ :=
    append_sep_inj d₁.version.data d₂.version.data _ _ h2 h5 htail2
  obtain ⟨-, hc⟩ := List.cons.injEq .. ▸ htail3
  exact ⟨String.ext ha, String.ext hb, String.ext hc⟩

/-- C2 witness: the amended injectivity applied to a concrete
separator-free descriptor. -/
theorem build_key_inj_witness :
    build_key ⟨"m", "v", "p", none, none⟩ =
      (ModelCfg.mk "m" "v" "p" none none).model_id ++ "::" ++
        (ModelCfg.mk "m" "v" "p" none none).version ++ "::" ++
        (ModelCfg.mk "m" "v" "p" none none).evaluation_profile
    ∧ (ModelCfg.mk "m" "v" "p" none none).model_id =
        (ModelCfg.mk "m" "v" "p" none none).model_id
    ∧ (ModelCfg.mk "m" "v" "p" none none).version =
        (ModelCfg.mk "m" "v" "p" none none).version
    ∧ (ModelCfg.mk "m" "v" "p" none none).evaluation_profile =
        (ModelCfg.mk "m" "v" "p" none none).evaluation_profile :=
  build_key_inj ⟨"m", "v", "p", none, none⟩ ⟨"m", "v", "p", none, none⟩
    (by decide) (by decide) (by decide) (by decide) (by decide) (by decide)
    rfl

/-- C5: `load_history` returns the empty mapping for an absent file and for
a file whose content strips to blank; for non-blank content it hands the
stripped content to the parser and a parse failure propagates as a fatal
error rather than an empty mapping. -/
theorem load_history_semantics (parse : String → Option History)
    (s t : String) (hs : strip s = "") (ht : strip t ≠ "")
    (hp : parse (strip t) = none) :
    load_history parse none = some []
    ∧ load_history parse (some s) = some []
    ∧ load_history parse (some t) = none := by
  refine ⟨rfl, ?_, ?_⟩
  · simp [load_history, hs]
  · simp [load_history, ht, hp]

/-- C5 witness: the load semantics at an absent file, a whitespace-only
content, and a non-blank content with an always-failing parser. -/
theorem load_history_semantics_witness :
    load_history (fun _ => none) none = some []
    ∧ load_history (fun _ => none) (some "  ") = some []
    ∧ load_history (fun _ => none) (some "x") = none :=
  load_history_semantics (fun _ => none) "  " "x" (by decide) (by decide) rfl

/-- C1: when the derived key already has a passing history entry, the
evaluation returns a pass, the history mapping unchanged (entry and
timestamp included), and an empty effect trace: the metrics provider is not
called and no artifacts are written, for any provider. -/
theorem idempotent_skip (provider : ModelCfg → Metrics) (now : String)
    (model_cfg : ModelCfg) (history : History)
    (h : has_successful_eval history (build_key model_cfg) = true) :
    evaluate_model_manifest provider now model_cfg history =
      (true, history, []) := by
  simp [evaluate_model_manifest, h]

/-- C1 witness: the skip applied to a concrete history holding a passing
entry for the manifest's key, with the stub provider. -/
theorem idempotent_skip_witness :
    has_successful_eval [("m1::1.0::p1", ⟨"pass", "mp", "rp", [], "t0"⟩)]
        (build_key ⟨"m1", "1.0", "p1", none, none⟩) = true
    ∧ evaluate_model_manifest run_deepeval_stub "t1"
        ⟨"m1", "1.0", "p1", none, none⟩
        [("m1::1.0::p1", ⟨"pass", "mp", "rp", [], "t0"⟩)] =
      (true, [("m1::1.0::p1", ⟨"pass", "mp", "rp", [], "t0"⟩)], []) :=
  ⟨by decide, idempotent_skip run_deepeval_stub "t1" _ _ (by decide)⟩

/-- C10: with an empty list of manifest paths, the run returns exit status
0 immediately and the effect trace is empty: the history store is neither
loaded nor saved, so the persisted file is left untouched. -/
theorem empty_batch_noop (parse : String → Option History)
    (file : Option String) (fs : String → Option ModelCfg)
    (provider : ModelCfg → Metrics) (now : String) :
    main_run parse file fs provider now [] = some (0, []) := rfl

/-- C8: the literal failing scenario of the spec, overall 0.72 against
threshold 0.75 and groups 0.68 and 0.70 against threshold 0.70: the verdict
fails with exactly the two three-decimal reasons, and the group exactly at
its threshold produces no reason. -/
theorem gate_literal_scenario :
    apply_gatekeeper ⟨"m1", "1.0", "p1", some (mkRat 75 100), some (mkRat 70 100)⟩
        ⟨"m1", "1.0", "p1", mkRat 72 100,
          [("group_a", mkRat 68 100), ("group_b", mkRat 70 100)], []⟩ =
      (false, ["overall_score 0.720 < min_overall_score 0.750",
        "group group_a score 0.680 < min_group_score 0.700"]) := by
  decide

/-- C4: over a non-empty batch of existing manifests (with the history
store loading to h₀), the run returns exit 0 iff every manifest's flag is
a pass (skipped-as-passed or newly passed), the full history is saved
exactly once and after the last manifest (the single save event closes the
trace and the loop itself emits none), every manifest ends with a history
entry at its key, and every manifest either had its artifacts written
during the batch or was skipped on an already-passing entry. -/
theorem batch_aggregation (parse : String → Option History)
    (file : Option String) (fs : String → Option ModelCfg)
    (provider : ModelCfg → Metrics) (now : String) (argv : List String)
    (h₀ : History) (hne : argv ≠ [])
    (hload : load_history parse file = some h₀)
    (hex : ∀ p ∈ argv, (fs p).isSome) :
    main_run parse file fs provider now argv =
      some ((if (batchFlags fs provider now h₀ argv).all id then 0 else 1),
        Event.historyLoad :: ((batchRun fs provider now h₀ argv).2.2 ++
          [Event.historySave (batchRun fs provider now h₀ argv).2.1]))
    ∧ (∀ hist : History,
        Event.historySave hist ∉ (batchRun fs provider now h₀ argv).2.2)
    ∧ (∀ p ∈ argv, ∀ cfg, fs p = some cfg →
        (histGet (batchRun fs provider now h₀ argv).2.1
          (build_key cfg)).isSome)
    ∧ (∀ p ∈ argv, ∀ cfg, fs p = some cfg →
        Event.artifactWrite cfg ∈ (batchRun fs provider now h₀ argv).2.2
        ∨ ∃ e, histGet (batchRun fs provider now h₀ argv).2.1
            (build_key cfg) = some e ∧ e.status = "pass") := by
  refine ⟨?_, fun hist => batchRun_no_save fs provider now argv h₀ hist,
    fun p hp cfg hcfg =>
      batchRun_records fs provider now argv h₀ p cfg hp hcfg,
    fun p hp cfg hcfg =>
      batchRun_processed fs provider now argv h₀ p cfg hp hcfg⟩
  have hemp : argv.isEmpty = false := by
    cases argv with
    | nil => exact absurd rfl hne
    | cons q rest => rfl
  simp only [main_run, hemp, hload, Bool.false_eq_true, if_false]
  rw [foldl_main_step, batchRun_fst_eq_flags]
  simp

/-- C4 witness: the batch aggregation applied to a one-manifest batch with
the stub provider and an absent history store. -/
theorem batch_aggregation_witness :
    main_run (fun _ => none) none demo_fs run_deepeval_stub "t0" ["a.yaml"] =
      some ((if (batchFlags demo_fs run_deepeval_stub "t0" []
            ["a.yaml"]).all id then 0 else 1),
        Event.historyLoad ::
          ((batchRun demo_fs run_deepeval_stub "t0" [] ["a.yaml"]).2.2 ++
            [Event.historySave
              (batchRun demo_fs run_deepeval_stub "t0" [] ["a.yaml"]).2.1]))
    ∧ (∀ hist : History, Event.historySave hist ∉
        (batchRun demo_fs run_deepeval_stub "t0" [] ["a.yaml"]).2.2)
    ∧ (∀ p ∈ ["a.yaml"], ∀ cfg, demo_fs p = some cfg →
        (histGet (batchRun demo_fs run_deepeval_stub "t0" []
          ["a.yaml"]).2.1 (build_key cfg)).isSome)
    ∧ (∀ p ∈ ["a.yaml"], ∀ cfg, demo_fs p = some cfg →
        Event.artifactWrite cfg ∈
          (batchRun demo_fs run_deepeval_stub "t0" [] ["a.yaml"]).2.2
        ∨ ∃ e, histGet (batchRun demo_fs run_deepeval_stub "t0" []
            ["a.yaml"]).2.1 (build_key cfg) = some e ∧
            e.status = "pass") :=
  batch_aggregation (fun _ => none) none demo_fs run_deepeval_stub "t0"
    ["a.yaml"] [] (by decide) rfl (by decide)

/-- C9: a manifest path that does not resolve appends only a warning to
the trace and leaves the pass flag and the history of the step untouched;
removing it from anywhere in the batch leaves the exit status unchanged;
and a batch of just that manifest exits 0, warning and re-saving the
loaded history as is. -/
theorem missing_manifest_handling (parse : String → Option History)
    (file : Option String) (fs : String → Option ModelCfg)
    (provider : ModelCfg → Metrics) (now : String) (p : String)
    (pre post : List String) (a : Bool) (h : History) (t : List Event)
    (h₀ : History) (hmiss : fs p = none)
    (hload : load_history parse file = some h₀) :
    main_step fs provider now (a, h, t) p =
      (a, h, t ++ [Event.warnMissing p])
    ∧ (main_run parse file fs provider now (pre ++ p :: post)).map Prod.fst
        = (main_run parse file fs provider now (pre ++ post)).map Prod.fst
    ∧ main_run parse file fs provider now [p] =
        some (0, [Event.historyLoad, Event.warnMissing p,
          Event.historySave h₀]) := by
  refine ⟨by simp [main_step, hmiss], ?_,
    main_run_single_missing parse file fs provider now p h₀ hmiss hload⟩
  by_cases hpp : (pre ++ post) = []
  · obtain ⟨rfl, rfl⟩ := List.append_eq_nil.mp hpp
    simp only [List.nil_append, List.append_nil]
    rw [main_run_single_missing parse file fs provider now p h₀ hmiss hload]
    rfl
  · have hemp1 : (pre ++ p :: post).isEmpty = false := by
      cases pre <;> rfl
    have hemp2 : (pre ++ post).isEmpty = false := by
      cases hpe : pre ++ post with
      | nil => exact absurd hpe hpp
      | cons x xs => rfl
    simp only [main_run, hemp1, hemp2, hload, Bool.false_eq_true, if_false]
    rw [foldl_main_step, foldl_main_step]
    have hb := batchRun_skip_missing fs provider now p hmiss pre post h₀
    simp [hb.1]

/-- C9 witness: the missing-manifest handling applied to a concrete batch
whose filesystem resolves nothing. -/
theorem missing_manifest_handling_witness :
    main_step (fun _ => none) run_deepeval_stub "t0" (true, [], []) "x" =
      (true, [], [] ++ [Event.warnMissing "x"])
    ∧ (main_run (fun _ => none) none (fun _ => none) run_deepeval_stub "t0"
          ([] ++ "x" :: ["y"])).map Prod.fst
        = (main_run (fun _ => none) none (fun _ => none) run_deepeval_stub
            "t0" ([] ++ ["y"])).map Prod.fst
    ∧ main_run (fun _ => none) none (fun _ => none) run_deepeval_stub "t0"
          ["x"] =
        some (0, [Event.historyLoad, Event.warnMissing "x",
          Event.historySave []]) :=
  missing_manifest_handling (fun _ => none) none (fun _ => none)
    run_deepeval_stub "t0" "x" [] ["y"] true [] [] [] rfl rfl

end CEDemo
